import Mathlib

/-!
# Verification of the casc-cdn client against its specification

Shallow embedding of the resolution and extraction pipeline of the casc-cdn
repository: the archive-index parser (`src/indices.ts`), the BLTE container
decoder (`src/blte.ts`), the root-manifest parser (`src/root.ts`, both the
MFST and the War3 variants), and the resolver (`src/client.ts`).

Modelling conventions:
* A Node.js `Buffer` is a `List Nat` of byte values (each `< 256` on real
  inputs; the readers combine bytes arithmetically exactly as `readUInt32BE`
  and friends do).
* JavaScript strings are `List Char`.  `Buffer.toString('hex')` is
  `hexOfBytes`; string normalisation helpers mirror the JS code on the
  ASCII range.
* Fallible operations return `Except CErr _` or `Option _`.  A `RangeError`
  raised by `BufferReader.ensureAvailable` is `CErr.rangeError`; every other
  `throw new Error(...)` in the source gets its own constructor.
* Loops whose exit depends on consuming input are written with an explicit
  fuel parameter set to the buffer length by the public wrapper; each
  iteration consumes at least one byte, so the wrapper computes exactly what
  the source loop computes (fuel-independence above the buffer length is
  proved as part of claim C10).
-/

set_option maxRecDepth 10000

/-- Error kinds of the embedded pipeline, one constructor per distinct
`throw` site in the source (plus `rangeError` for `BufferReader` bounds
failures and `recursionFuel` for the fuel artifact of nested BLTE). -/
inductive CErr where
  | rangeError
  | insufficientBlock
  | badSignature
  | badHeaderSize
  | badFormat
  | badBlockCount
  | blockMissing
  | unknownCodec (tag : Nat)
  | unsupportedEncryption
  | lz4Version
  | recursionFuel
  | fetchFailed
deriving DecidableEq

instance {ε α : Type} [DecidableEq ε] [DecidableEq α] : DecidableEq (Except ε α)
  | .ok a, .ok b =>
    if h : a = b then .isTrue (by rw [h]) else .isFalse (by simp [h])
  | .ok _, .error _ => .isFalse (by simp)
  | .error _, .ok _ => .isFalse (by simp)
  | .error e, .error f =>
    if h : e = f then .isTrue (by rw [h]) else .isFalse (by simp [h])

/-- Big-endian 32-bit read of the first four bytes of a list, as
`Buffer.readUInt32BE` does at the reader position; `none` on short input. -/
def u32be : List Nat → Option Nat
  | b0 :: b1 :: b2 :: b3 :: _ => some (((b0 * 256 + b1) * 256 + b2) * 256 + b3)
  | _ => none

/-- Big-endian 24-bit read (`BufferReader.uint24be`). -/
def u24be : List Nat → Option Nat
  | b0 :: b1 :: b2 :: _ => some ((b0 * 256 + b1) * 256 + b2)
  | _ => none

/-- Little-endian 32-bit unsigned read (`BufferReader.uint32le`), returning
the value and the rest of the input. -/
def readU32LE : List Nat → Option (Nat × List Nat)
  | b0 :: b1 :: b2 :: b3 :: rest =>
    some (b0 + b1 * 256 + b2 * 65536 + b3 * 16777216, rest)
  | _ => none

/-- Little-endian 32-bit signed read (`BufferReader.int32le`). -/
def readI32LE : List Nat → Option (Int × List Nat)
  | b0 :: b1 :: b2 :: b3 :: rest =>
    let u := b0 + b1 * 256 + b2 * 65536 + b3 * 16777216
    some (if u < 2147483648 then (u : Int) else (u : Int) - 4294967296, rest)
  | _ => none

/-- Little-endian 64-bit unsigned read (`BufferReader.uint64le`). -/
def readU64LE : List Nat → Option (Nat × List Nat)
  | b0 :: b1 :: b2 :: b3 :: b4 :: b5 :: b6 :: b7 :: rest =>
    some (b0 + b1 * 256 + b2 * 65536 + b3 * 16777216 + b4 * 4294967296 +
      b5 * 1099511627776 + b6 * 281474976710656 + b7 * 72057594037927936, rest)
  | _ => none

/-- Lowercase hex digit for a nibble, as `Buffer.toString('hex')` emits. -/
def hexDigitChar (n : Nat) : Char :=
  if n < 10 then Char.ofNat (48 + n) else Char.ofNat (87 + n)

/-- Two lowercase hex digits of one byte. -/
def hexOfByte (b : Nat) : List Char :=
  [hexDigitChar (b / 16), hexDigitChar (b % 16)]

/-- `Buffer.toString('hex')` over a byte list (`BufferReader.string(n, 'hex')`
applied to the `n` bytes read). -/
def hexOfBytes (bs : List Nat) : List Char :=
  (bs.map hexOfByte).flatten

/-- `IndexSource` of `src/indices.ts`: which kind of index file an entry
came from. -/
inductive IndexSource where
  | archive
  | patch
deriving DecidableEq

/-- `IndexEntry` of `src/indices.ts`.  `eKey` is the hex string the source
stores; `archiveHash` is the hash string passed in by the caller. -/
structure IndexEntry where
  eKey : List Char
  size : Nat
  offset : Nat
  archiveHash : List Char
  source : IndexSource
deriving DecidableEq

/-- The `while (!reader.eof())` loop of `parseIndexEntry`
(`src/indices.ts` lines 30-50).  Each iteration reads a 16-byte eKey and two
big-endian `uint32` fields (24 bytes total).  A short read raises
`RangeError`, which the `catch` turns into `break`; an oversized `size`
raises a plain `Error`, which the `catch` swallows so the loop continues
with the next 24-byte record.  `fuel` is an artifact standing for the loop
guard; the wrapper passes the buffer length, which bounds the iteration
count since every iteration consumes 24 bytes. -/
def parseIndexLoop (archiveHash : List Char) (source : IndexSource) :
    Nat → List Nat → List IndexEntry
  | 0, _ => []
  | _, [] => []
  | fuel + 1, b :: bs =>
    let bytes := b :: bs
    if bytes.length < 24 then []
    else
      let size := (u32be (bytes.drop 16)).getD 0
      let rest := bytes.drop 24
      if 2 * 1024 * 1024 < size then
        parseIndexLoop archiveHash source fuel rest
      else
        { eKey := hexOfBytes (bytes.take 16)
          size := size
          offset := (u32be (bytes.drop 20)).getD 0
          archiveHash := archiveHash
          source := source } :: parseIndexLoop archiveHash source fuel rest

/-- The footer trim of `parseIndexEntry`: when the input length is not a
multiple of the 4096-byte page size, the trailing partial page (the footer)
is cut off (`Math.ceil(length / 4096) - 1` whole pages are kept). -/
def indexDataRegion (buffer : List Nat) : List Nat :=
  if buffer.length % 4096 = 0 then buffer
  else buffer.take (((buffer.length + 4096 - 1) / 4096 - 1) * 4096)

/-- `parseIndexEntry` of `src/indices.ts`: trim the footer page, then parse
24-byte records until end of input. -/
def parseIndexEntry (buffer : List Nat) (archiveHash : List Char)
    (source : IndexSource) : List IndexEntry :=
  parseIndexLoop archiveHash source (indexDataRegion buffer).length
    (indexDataRegion buffer)


/-- One unfolding of the parse loop on a buffer holding at least one full
24-byte record: an oversized record is skipped, any other record is
emitted; either way the loop continues 24 bytes further on. -/
theorem parseIndexLoop_step (ah : List Char) (src : IndexSource)
    (fuel : Nat) (bytes : List Nat) (h : 24 ≤ bytes.length) :
    parseIndexLoop ah src (fuel + 1) bytes =
      if 2 * 1024 * 1024 < (u32be (bytes.drop 16)).getD 0 then
        parseIndexLoop ah src fuel (bytes.drop 24)
      else
        { eKey := hexOfBytes (bytes.take 16)
          size := (u32be (bytes.drop 16)).getD 0
          offset := (u32be (bytes.drop 20)).getD 0
          archiveHash := ah
          source := src } :: parseIndexLoop ah src fuel (bytes.drop 24) := by
  match bytes with
  | b :: bs =>
    simp only [parseIndexLoop]
    rw [if_neg (Nat.not_lt.mpr h)]

/-- A buffer with fewer than 24 bytes left produces nothing: the record
read raises `RangeError` and the loop breaks (or it was already at EOF). -/
theorem parseIndexLoop_short (ah : List Char) (src : IndexSource)
    (fuel : Nat) (bytes : List Nat) (h : bytes.length < 24) :
    parseIndexLoop ah src fuel bytes = [] := by
  match fuel, bytes with
  | 0, _ => simp [parseIndexLoop]
  | _ + 1, [] => simp [parseIndexLoop]
  | _ + 1, b :: bs => simp only [parseIndexLoop]; rw [if_pos h]

/-- Reading a big-endian `uint32` out of at least four zero bytes gives
zero. -/
theorem u32be_replicate_zero (m : Nat) :
    u32be (List.replicate (m + 4) 0) = some 0 := by
  rw [List.replicate_succ, List.replicate_succ, List.replicate_succ,
    List.replicate_succ]
  rfl

/-- All-zero 4096-byte page: page-aligned input made entirely of the
zero-padding the spec discusses. -/
def zeroPage : List Nat := List.replicate 4096 0

/-- The entry the parser builds from a 24-byte all-zero record. -/
def zeroIndexEntry : IndexEntry :=
  { eKey := hexOfBytes (List.replicate 16 0)
    size := 0
    offset := 0
    archiveHash := []
    source := IndexSource.archive }

theorem parseIndexEntry_zeroPage_head :
    ∃ tail, parseIndexEntry zeroPage [] IndexSource.archive =
      zeroIndexEntry :: tail := by
  have hlen : zeroPage.length = 4096 := List.length_replicate 4096 0
  have hregion : indexDataRegion zeroPage = zeroPage := by
    rw [indexDataRegion, hlen, if_pos]
    norm_num
  have hdrop16 : zeroPage.drop 16 = List.replicate (4076 + 4) 0 := by
    rw [zeroPage, List.drop_replicate]
  have hdrop20 : zeroPage.drop 20 = List.replicate (4072 + 4) 0 := by
    rw [zeroPage, List.drop_replicate]
  have htake : zeroPage.take 16 = List.replicate 16 0 := by
    rw [zeroPage, List.take_replicate]
    norm_num
  rw [parseIndexEntry, hregion, hlen,
    show (4096 : Nat) = 4095 + 1 from rfl,
    parseIndexLoop_step [] IndexSource.archive 4095 zeroPage
      (by rw [hlen]; norm_num),
    hdrop16, hdrop20, htake, u32be_replicate_zero, u32be_replicate_zero]
  exact ⟨_, rfl⟩

/-- Claim C1 (counterexample): on an all-zero page-aligned buffer the
parser emits an entry whose `size` is `0` — the size check
`size < 0 || size > 2 MiB` cannot reject a zero size, so zero-padding is
not rejected and `0 < size` fails for an emitted entry. -/
theorem index_zero_size_entry_emitted :
    ((parseIndexEntry zeroPage [] IndexSource.archive).map
      IndexEntry.size).head? = some 0 := by
  obtain ⟨tail, heq⟩ := parseIndexEntry_zeroPage_head
  rw [heq]
  rfl

/-- Claim C1 (amended): every `IndexEntry` emitted by `parseIndexEntry`
satisfies `size ≤ 2 MiB`; entries with `size = 0` (zero-padding inside the
last data page) are emitted, not rejected. -/
theorem index_entry_size_le (buffer : List Nat) (ah : List Char)
    (src : IndexSource) :
    ∀ e ∈ parseIndexEntry buffer ah src, e.size ≤ 2 * 1024 * 1024 := by
  suffices h : ∀ fuel bytes, ∀ e ∈ parseIndexLoop ah src fuel bytes,
      e.size ≤ 2 * 1024 * 1024 by
    intro e he
    exact h _ _ e he
  intro fuel
  induction fuel with
  | zero => intro bytes e he; simp [parseIndexLoop] at he
  | succ n ih =>
    intro bytes e he
    rcases Nat.lt_or_ge bytes.length 24 with hlen | hlen
    · rw [parseIndexLoop_short _ _ _ _ hlen] at he
      simp at he
    · rw [parseIndexLoop_step _ _ _ _ hlen] at he
      by_cases hsz : 2 * 1024 * 1024 < (u32be (bytes.drop 16)).getD 0
      · rw [if_pos hsz] at he
        exact ih _ e he
      · rw [if_neg hsz] at he
        rcases List.mem_cons.mp he with rfl | hmem
        · exact Nat.le_of_not_lt hsz
        · exact ih _ e hmem

/-- Witness for `index_entry_size_le` at the all-zero page: the zero-size
entry it emits is in range. -/
theorem index_entry_size_le_witness :
    zeroIndexEntry.size ≤ 2 * 1024 * 1024 :=
  index_entry_size_le zeroPage [] IndexSource.archive zeroIndexEntry
    (by obtain ⟨tail, heq⟩ := parseIndexEntry_zeroPage_head
        rw [heq]
        exact List.mem_cons_self _ _)

/-- A 24-byte record whose `size` field is `0x300000` (3 MiB, above the
2 MiB bound). -/
def invalidRecord : List Nat :=
  [0, 0, 0, 0, 0, 0, 0, 0, 0, 0, 0, 0, 0, 0, 0, 0, 0, 48, 0, 0, 0, 0, 0, 0]

/-- A 24-byte record whose `size` field is `1`. -/
def smallRecord : List Nat :=
  [0, 0, 0, 0, 0, 0, 0, 0, 0, 0, 0, 0, 0, 0, 0, 0, 0, 0, 0, 1, 0, 0, 0, 0]

/-- One 4096-byte data page: an oversized record, then a valid one, then
zero padding. -/
def mixedPage : List Nat :=
  invalidRecord ++ smallRecord ++ List.replicate 4048 0

/-- Claim C4 (counterexample): in `mixedPage` the first record's `size`
(3 MiB) fails the bound, yet parsing does not stop there — the record that
follows the offending one is still emitted (with `size = 1`). -/
theorem index_invalid_size_does_not_stop :
    2 * 1024 * 1024 < (u32be (mixedPage.drop 16)).getD 0 ∧
    ((parseIndexEntry mixedPage [] IndexSource.archive).map
      IndexEntry.size).head? = some 1 := by
  have hu1 : u32be (mixedPage.drop 16) = some 3145728 := rfl
  have h24a : invalidRecord.length = 24 := rfl
  have h24b : smallRecord.length = 24 := rfl
  have hlen : mixedPage.length = 4096 := by
    rw [mixedPage, List.length_append, List.length_append, h24a, h24b,
      List.length_replicate]
  have hregion : indexDataRegion mixedPage = mixedPage := by
    rw [indexDataRegion, hlen, if_pos]
    norm_num
  have hrest : mixedPage.drop 24 = smallRecord ++ List.replicate 4048 0 := rfl
  have hlen2 : (smallRecord ++ List.replicate 4048 0).length = 4072 := by
    rw [List.length_append, h24b, List.length_replicate]
  have hu2 : u32be ((smallRecord ++ List.replicate 4048 0).drop 16) =
      some 1 := rfl
  refine ⟨by rw [hu1]; norm_num, ?_⟩
  rw [parseIndexEntry, hregion, hlen,
    show (4096 : Nat) = 4095 + 1 from rfl,
    parseIndexLoop_step [] IndexSource.archive 4095 mixedPage
      (by rw [hlen]; norm_num),
    hu1]
  simp only [Option.getD_some]
  rw [if_pos (show 2 * 1024 * 1024 < 3145728 by norm_num),
    hrest,
    show (4095 : Nat) = 4094 + 1 from rfl,
    parseIndexLoop_step [] IndexSource.archive 4094
      (smallRecord ++ List.replicate 4048 0) (by rw [hlen2]; norm_num),
    hu2]
  simp only [Option.getD_some]
  rw [if_neg (show ¬ 2 * 1024 * 1024 < 1 by norm_num)]
  rfl

/-- Claim C4 (amended): a short read (fewer than 24 bytes left) stops the
parse loop with no further entries, while an invalid size (> 2 MiB) only
skips the offending record — the swallowed non-`RangeError` lets the loop
continue with the bytes that follow it. -/
theorem index_stop_on_short_read_skip_on_bad_size :
    (∀ (ah : List Char) (src : IndexSource) (fuel : Nat) (bytes : List Nat),
      bytes.length < 24 → parseIndexLoop ah src fuel bytes = []) ∧
    (∀ (ah : List Char) (src : IndexSource) (fuel : Nat) (bytes : List Nat),
      24 ≤ bytes.length →
      2 * 1024 * 1024 < (u32be (bytes.drop 16)).getD 0 →
      parseIndexLoop ah src (fuel + 1) bytes =
        parseIndexLoop ah src fuel (bytes.drop 24)) := by
  refine ⟨parseIndexLoop_short, ?_⟩
  intro ah src fuel bytes hlen hsz
  rw [parseIndexLoop_step ah src fuel bytes hlen, if_pos hsz]

/-- Witness for `index_stop_on_short_read_skip_on_bad_size`: three leftover
bytes stop the loop; an oversized record is skipped and parsing continues
on the bytes after it. -/
theorem index_stop_skip_witness :
    parseIndexLoop [] IndexSource.archive 5 [0, 0, 0] = [] ∧
    parseIndexLoop [] IndexSource.archive 3 invalidRecord =
      parseIndexLoop [] IndexSource.archive 2 (invalidRecord.drop 24) :=
  ⟨index_stop_on_short_read_skip_on_bad_size.1 [] IndexSource.archive 5
      [0, 0, 0] (by decide),
   index_stop_on_short_read_skip_on_bad_size.2 [] IndexSource.archive 2
      invalidRecord (by decide) (by decide)⟩

theorem parseIndexLoop_fuel_irrelevant (ah : List Char) (src : IndexSource) :
    ∀ (f1 : Nat) (bytes : List Nat) (f2 : Nat), bytes.length ≤ f1 →
      bytes.length ≤ f2 →
      parseIndexLoop ah src f1 bytes = parseIndexLoop ah src f2 bytes := by
  intro f1
  induction f1 with
  | zero =>
    intro bytes f2 h1 _
    have hb : bytes = [] := List.length_eq_zero.mp (Nat.le_zero.mp h1)
    subst hb
    rw [parseIndexLoop_short _ _ _ _ (by norm_num),
      parseIndexLoop_short _ _ _ _ (by norm_num)]
  | succ n ih =>
    intro bytes f2 h1 h2
    rcases Nat.lt_or_ge bytes.length 24 with hlt | hge
    · rw [parseIndexLoop_short _ _ _ _ hlt, parseIndexLoop_short _ _ _ _ hlt]
    · obtain ⟨m, rfl⟩ : ∃ m, f2 = m + 1 := ⟨f2 - 1, by omega⟩
      rw [parseIndexLoop_step _ _ _ _ hge, parseIndexLoop_step _ _ _ _ hge]
      have hr1 : (bytes.drop 24).length ≤ n := by
        simp only [List.length_drop]
        omega
      have hr2 : (bytes.drop 24).length ≤ m := by
        simp only [List.length_drop]
        omega
      rw [ih (bytes.drop 24) m hr1 hr2]

/-- Claim C10: the parse loop of `parseIndexEntry` terminates on every
finite buffer.  Formally: its result no longer depends on the fuel bound
once the bound reaches the buffer length (the loop exits within `length`
iterations), because each iteration either stops on a short read
(`RangeError`) or advances by exactly the 24 bytes of one record — emitting
at most one entry — even when the size check throws the swallowed
non-`RangeError`. -/
theorem index_parse_terminates :
    (∀ (ah : List Char) (src : IndexSource) (bytes : List Nat) (f1 f2 : Nat),
      bytes.length ≤ f1 → bytes.length ≤ f2 →
      parseIndexLoop ah src f1 bytes = parseIndexLoop ah src f2 bytes) ∧
    (∀ (ah : List Char) (src : IndexSource) (fuel : Nat) (bytes : List Nat),
      24 ≤ bytes.length →
      parseIndexLoop ah src (fuel + 1) bytes =
        parseIndexLoop ah src fuel (bytes.drop 24) ∨
      ∃ e, parseIndexLoop ah src (fuel + 1) bytes =
        e :: parseIndexLoop ah src fuel (bytes.drop 24)) := by
  constructor
  · intro ah src bytes f1 f2 h1 h2
    exact parseIndexLoop_fuel_irrelevant ah src f1 bytes f2 h1 h2
  · intro ah src fuel bytes hlen
    rw [parseIndexLoop_step ah src fuel bytes hlen]
    by_cases hsz : 2 * 1024 * 1024 < (u32be (bytes.drop 16)).getD 0
    · left
      rw [if_pos hsz]
    · right
      exact ⟨_, by rw [if_neg hsz]⟩

/-- Witness for `index_parse_terminates` on a concrete 24-byte record. -/
theorem index_parse_terminates_witness :
    parseIndexLoop [] IndexSource.archive 24 smallRecord =
      parseIndexLoop [] IndexSource.archive 30 smallRecord ∧
    (parseIndexLoop [] IndexSource.archive 1 smallRecord =
      parseIndexLoop [] IndexSource.archive 0 (smallRecord.drop 24) ∨
    ∃ e, parseIndexLoop [] IndexSource.archive 1 smallRecord =
      e :: parseIndexLoop [] IndexSource.archive 0 (smallRecord.drop 24)) :=
  ⟨index_parse_terminates.1 [] IndexSource.archive smallRecord 24 30
      (by decide) (by decide),
   index_parse_terminates.2 [] IndexSource.archive 0 smallRecord
      (by decide)⟩

/-- `BLTEBlock` of `src/blte.ts`: per-block metadata from the BLTE header.
`hash` (and `uncompressedHash` for format `0x10`) are the hex strings the
source stores. -/
structure BLTEBlock where
  compressedSize : Nat
  decompressedSize : Nat
  hash : List Char
  uncompressedHash : Option (List Char) := none
deriving DecidableEq

/-- The per-block loop of `BLTEReader.parseHeader`: read `count` block
entries starting at byte `off` (24 bytes each, 40 when format is `0x10`).
Any shortfall raises `RangeError`. -/
def readBlocks (buf : List Nat) (format : Nat) : Nat → Nat →
    Except CErr (List BLTEBlock)
  | 0, _ => .ok []
  | n + 1, off =>
    match u32be (buf.drop off), u32be (buf.drop (off + 4)) with
    | some comp, some decomp =>
      if off + 24 ≤ buf.length then
        let hash := hexOfBytes ((buf.drop (off + 8)).take 16)
        if format = 16 then
          if off + 40 ≤ buf.length then
            (readBlocks buf format n (off + 40)).map
              (fun bs =>
                { compressedSize := comp, decompressedSize := decomp,
                  hash := hash,
                  uncompressedHash :=
                    some (hexOfBytes ((buf.drop (off + 24)).take 16)) } :: bs)
          else .error .rangeError
        else
          (readBlocks buf format n (off + 24)).map
            (fun bs =>
              { compressedSize := comp, decompressedSize := decomp,
                hash := hash, uncompressedHash := none } :: bs)
      else .error .rangeError
    | _, _ => .error .rangeError

/-- `BLTEReader.parseHeader`: checks the `BLTE` signature, a non-zero
`headerSize`, format `0x0F` or `0x10`, a non-zero 24-bit block count, and
then reads the block entries from byte 12 on.  Returns
`(headerSize, format, blocks)`. -/
def parseHeader (buf : List Nat) :
    Except CErr (Nat × Nat × List BLTEBlock) :=
  if buf.length < 4 then .error .rangeError
  else if buf.take 4 ≠ [66, 76, 84, 69] then .error .badSignature
  else
    match u32be (buf.drop 4) with
    | none => .error .rangeError
    | some headerSize =>
      if headerSize = 0 then .error .badHeaderSize
      else
        match buf.get? 8 with
        | none => .error .rangeError
        | some format =>
          if format ≠ 15 ∧ format ≠ 16 then .error .badFormat
          else
            match u24be (buf.drop 9) with
            | none => .error .rangeError
            | some blocksCount =>
              if blocksCount = 0 then .error .badBlockCount
              else
                (readBlocks buf format blocksCount 12).map
                  (fun blocks => (headerSize, format, blocks))

/-- `BLTEReader.calcBlockOffset` for the block at `idx`: `headerSize` plus
the compressed sizes of all prior blocks in the canonical ordered list
(`blocks.indexOf` on the same object reference always yields `idx`). -/
def blockOffset (headerSize : Nat) (blocks : List BLTEBlock) (idx : Nat) :
    Nat :=
  headerSize + (((blocks.take idx).map BLTEBlock.compressedSize).sum)

/-- The LZ4 branch of `BLTEReader.getBlockData`
(`processLz4Block`): byte 0 is the version (must be 1), bytes 1-8 a
big-endian size and byte 9 a block shift (both read and discarded), and the
rest is handed to the external `lz4.decode` (the `lz4` parameter — the
library is an external collaborator of the source). -/
def processLz4Payload (lz4 : List Nat → Except CErr (List Nat))
    (data : List Nat) : Except CErr (List Nat) :=
  match data.get? 0 with
  | none => .error .rangeError
  | some v =>
    if v ≠ 1 then .error .lz4Version
    else if data.length < 10 then .error .rangeError
    else lz4 (data.drop 10)

/-- The body of `BLTEReader.getBlockData` for the block at index `idx`,
parameterised by the external decompressors (`zlib.unzipSync` and
`lz4.decode`) and by `recurse`, the decoding of a nested BLTE container
(the `'F'` codec).  Mirrors the source: look the block up, seek to its
offset, read the 1-byte codec tag, take the `compressedSize - 1` payload
bytes (with `raw`'s JavaScript arithmetic: a zero `compressedSize` makes
the length `-1`, which passes the bounds check and yields an empty slice),
then dispatch on the tag. -/
def getBlockDataCore (z lz4 : List Nat → Except CErr (List Nat))
    (recurse : List Nat → Except CErr (List Nat)) (buf : List Nat)
    (headerSize : Nat) (blocks : List BLTEBlock) (idx : Nat) :
    Except CErr (List Nat) :=
  match blocks.get? idx with
  | none => .error .blockMissing
  | some block =>
    let off := blockOffset headerSize blocks idx
    if buf.length < off then .error .rangeError
    else
      match buf.get? off with
      | none => .error .rangeError
      | some tag =>
        if ((off + 1 : Int) + ((block.compressedSize : Int) - 1)) >
            (buf.length : Int) then .error .rangeError
        else
          let data := (buf.drop (off + 1)).take (block.compressedSize - 1)
          if tag = 78 then .ok data
          else if tag = 90 then z data
          else if tag = 52 then processLz4Payload lz4 data
          else if tag = 70 then recurse data
          else if tag = 69 then .error .unsupportedEncryption
          else .error (.unknownCodec tag)

/-- The loop of `BLTEReader.getBlocksData`: concatenate the decoded data of
blocks `i, i+1, ..., i+n-1`. -/
def concatBlocksGo (get1 : Nat → Except CErr (List Nat)) :
    Nat → Nat → Except CErr (List Nat)
  | _, 0 => .ok []
  | i, n + 1 => do
    let d ← get1 i
    let rest ← concatBlocksGo get1 (i + 1) n
    return d ++ rest

/-- `BLTEReader` construction plus `getBlocksData`, with a fuel bound on
the nesting depth of the `'F'` codec (the source recurses without a bound;
every nested container is a strict sub-slice of its parent, so the
`buf.length + 1` fuel the wrapper passes never runs out). -/
def getBlocksDataF (z lz4 : List Nat → Except CErr (List Nat)) :
    Nat → List Nat → Except CErr (List Nat)
  | 0, _ => .error .recursionFuel
  | fuel + 1, buf => do
    let (headerSize, _format, blocks) ← parseHeader buf
    concatBlocksGo
      (getBlockDataCore z lz4 (getBlocksDataF z lz4 fuel) buf headerSize
        blocks) 0 blocks.length

/-- `new BLTEReader(buffer).getBlocksData()` of `src/blte.ts`. -/
def getBlocksData (z lz4 : List Nat → Except CErr (List Nat))
    (buf : List Nat) : Except CErr (List Nat) :=
  getBlocksDataF z lz4 (buf.length + 1) buf

/-- Stand-in for the external decompressors in closed statements whose
inputs contain no `'Z'` or `'4'` block (the choice is never consulted). -/
def dummyCodec : List Nat → Except CErr (List Nat) :=
  fun _ => .error .rangeError

/-- The literal input of the spec's scenario 1:
`"BLTE" || 0x0000000C || 0x0F || 0x000001 || 0x00000006 || 0x00000005 ||
<16 zero bytes> || 'N' || "hello"`. -/
def blteScenarioInput : List Nat :=
  [66, 76, 84, 69] ++ [0, 0, 0, 12] ++ [15] ++ [0, 0, 1] ++
  [0, 0, 0, 6] ++ [0, 0, 0, 5] ++ List.replicate 16 0 ++ [78] ++
  [104, 101, 108, 108, 111]

/-- The same container with the `headerSize` field corrected to 36
(`12 + 24`: the fixed prefix plus the one 24-byte block entry), so the
payload offset actually points at the `'N'` tag. -/
def blteScenarioFixed : List Nat :=
  [66, 76, 84, 69] ++ [0, 0, 0, 36] ++ [15] ++ [0, 0, 1] ++
  [0, 0, 0, 6] ++ [0, 0, 0, 5] ++ List.replicate 16 0 ++ [78] ++
  [104, 101, 108, 108, 111]

/-- Claim C2 (counterexample): on the literal scenario bytes
(`headerSize = 12`) the decoder seeks to byte 12 — the first byte of the
block-entry table, value `0` — reads it as the codec tag and fails with
`UnknownCodec`, instead of producing `"hello"`. -/
theorem blte_scenario_literal_fails :
    getBlocksData dummyCodec dummyCodec blteScenarioInput =
      .error (.unknownCodec 0) := by decide

/-- Claim C2 (amended): with the `headerSize` field set to 36 — the byte
offset where the block payload actually begins, since the block-entry
table itself occupies bytes 12-35 — decoding the single uncompressed
(`'N'`) block produces exactly the five bytes `"hello"`, for any choice of
external decompressors. -/
theorem blte_scenario_fixed_decodes (z lz4 : List Nat →
    Except CErr (List Nat)) :
    getBlocksData z lz4 blteScenarioFixed =
      .ok [104, 101, 108, 108, 111] := by
  rfl

/-- Claim C8: a BLTE block whose codec tag byte is `'E'` (69) never decodes
to output bytes, and — whenever its payload lies inside the buffer so the
`raw` read succeeds — `getBlockData` fails with the `UnsupportedEncryption`
error (`processEncryptedBlock` throws unconditionally). -/
theorem blte_encrypted_block_rejected
    (z lz4 recurse : List Nat → Except CErr (List Nat)) (buf : List Nat)
    (headerSize : Nat) (blocks : List BLTEBlock) (idx : Nat)
    (block : BLTEBlock) (hblock : blocks.get? idx = some block)
    (htag : buf.get? (blockOffset headerSize blocks idx) = some 69) :
    (∀ out, getBlockDataCore z lz4 recurse buf headerSize blocks idx ≠
      .ok out) ∧
    (blockOffset headerSize blocks idx + block.compressedSize ≤ buf.length →
      getBlockDataCore z lz4 recurse buf headerSize blocks idx =
        .error .unsupportedEncryption) := by
  have hofflt : blockOffset headerSize blocks idx < buf.length := by
    obtain ⟨h, -⟩ := List.get?_eq_some.mp htag
    exact h
  simp only [getBlockDataCore, hblock, htag]
  rw [if_neg (Nat.not_lt.mpr (Nat.le_of_lt hofflt))]
  constructor
  · intro out
    by_cases hrange : ((blockOffset headerSize blocks idx + 1 : Int) +
        ((block.compressedSize : Int) - 1)) > (buf.length : Int)
    · rw [if_pos hrange]
      simp
    · rw [if_neg hrange]
      norm_num
      exact fun h => Except.noConfusion h
  · intro hle
    rw [if_neg (show ¬ ((blockOffset headerSize blocks idx + 1 : Int) +
        ((block.compressedSize : Int) - 1)) > (buf.length : Int) by
      omega)]
    norm_num

/-- A block entry declaring a 3-byte compressed payload. -/
def encBlock : BLTEBlock :=
  { compressedSize := 3, decompressedSize := 5, hash := [] }

/-- Witness for `blte_encrypted_block_rejected`: a 5-byte buffer whose
block payload at offset 2 starts with the `'E'` tag. -/
theorem blte_encrypted_block_rejected_witness :
    getBlockDataCore dummyCodec dummyCodec dummyCodec [0, 0, 69, 1, 2] 2
      [encBlock] 0 = .error .unsupportedEncryption :=
  (blte_encrypted_block_rejected dummyCodec dummyCodec dummyCodec
    [0, 0, 69, 1, 2] 2 [encBlock] 0 encBlock (by decide) (by decide)).2
    (by decide)

namespace RootFile

/-- The `Locale` boolean structure of `src/root.ts` (sixteen flags; `plPL`
exists only in the interface, not in the numeric `LocaleFlags` enum). -/
structure Locale where
  enUS : Bool
  koKR : Bool
  frFR : Bool
  deDE : Bool
  zhCN : Bool
  esES : Bool
  zhTW : Bool
  enGB : Bool
  enCN : Bool
  enTW : Bool
  esMX : Bool
  ruRU : Bool
  ptBR : Bool
  itIT : Bool
  ptPT : Bool
  plPL : Bool
deriving DecidableEq

/-- The numeric branch of `RootFile.getLocales`: one flag per
`LocaleFlags` bit of `src/types/tact.ts`. -/
def getLocalesNum (flag : Nat) : Locale :=
  { enUS := (flag &&& 2) != 0
    koKR := (flag &&& 4) != 0
    frFR := (flag &&& 16) != 0
    deDE := (flag &&& 32) != 0
    zhCN := (flag &&& 64) != 0
    esES := (flag &&& 128) != 0
    zhTW := (flag &&& 256) != 0
    enGB := (flag &&& 512) != 0
    enCN := (flag &&& 1024) != 0
    enTW := (flag &&& 2048) != 0
    esMX := (flag &&& 4096) != 0
    ruRU := (flag &&& 8192) != 0
    ptBR := (flag &&& 16384) != 0
    itIT := (flag &&& 32768) != 0
    ptPT := (flag &&& 65536) != 0
    plPL := false }

/-- `RootEntry` of `src/root.ts`.  `fileDataId` is a JavaScript number (the
MFST delta reconstruction can in principle drive it negative, hence
`Int`); `nameHash` is the `BigInt` value when present. -/
structure RootEntry where
  fileDataId : Int
  contentKey : List Char
  nameHash : Option Nat
  localeFlags : Locale
  contentFlags : Int
  normalizedPath : Option (List Char)
  scopes : Option (List (List Char))
deriving DecidableEq

/-- JavaScript `ToInt32`: reduce mod 2^32 into `[-2^31, 2^31)`. -/
def jsToInt32 (x : Int) : Int :=
  let u := x % 4294967296
  if u < 2147483648 then u else u - 4294967296

/-- The unsigned 32-bit bit pattern of a JavaScript number under `ToInt32`
(also `ToUint32`). -/
def toU32 (x : Int) : Nat := (x % 4294967296).toNat

/-- JavaScript `|` on 32-bit patterns. -/
def jsOr32 (a b : Int) : Int := jsToInt32 ((toU32 a ||| toU32 b : Nat) : Int)

/-- JavaScript `<<` on 32-bit patterns. -/
def jsShl32 (a : Int) (k : Nat) : Int :=
  jsToInt32 (((toU32 a <<< k : Nat) : Int))

/-- `numRecords` iterations of `reader.int32le()` (the fileDataID delta
array of `RootFile.parseBlock`). -/
def readNI32 : Nat → List Nat → Option (List Int × List Nat)
  | 0, l => some ([], l)
  | n + 1, l =>
    match readI32LE l with
    | none => none
    | some (v, r) =>
      match readNI32 n r with
      | none => none
      | some (vs, r2) => some (v :: vs, r2)

/-- `numRecords` iterations of `reader.string(16, 'hex')` (the content-key
array of `RootFile.parseBlock`). -/
def readNHex : Nat → List Nat → Option (List (List Char) × List Nat)
  | 0, l => some ([], l)
  | n + 1, l =>
    if 16 ≤ l.length then
      match readNHex n (l.drop 16) with
      | none => none
      | some (ks, r) => some (hexOfBytes (l.take 16) :: ks, r)
    else none

/-- `numRecords` iterations of `reader.uint64le()` (the name-hash array of
`RootFile.parseBlock`). -/
def readNU64 : Nat → List Nat → Option (List Nat × List Nat)
  | 0, l => some ([], l)
  | n + 1, l =>
    match readU64LE l with
    | none => none
    | some (v, r) =>
      match readNU64 n r with
      | none => none
      | some (vs, r2) => some (v :: vs, r2)

/-- The running-total recurrence of `RootFile.parseBlock` after the first
record: each following id is `current + 1 + delta`. -/
def reconstructIdsFrom (current : Int) : List Int → List Int
  | [] => []
  | d :: ds => (current + 1 + d) :: reconstructIdsFrom (current + 1 + d) ds

/-- The fileDataID reconstruction of `RootFile.parseBlock`: the first id is
`delta[0]` itself, each later one is the predecessor plus one plus its
delta. -/
def reconstructIds : List Int → List Int
  | [] => []
  | d :: ds => d :: reconstructIdsFrom d ds

/-- The entry-building loop of `RootFile.parseBlock`, with the ids already
reconstructed: one `RootEntry` per record, carrying the per-block locale
and content flags, no path and no scopes. -/
def mkEntries (locale : Locale) (flags : Int) :
    List Int → List (List Char) → List (Option Nat) → List RootEntry
  | id :: ids, ck :: cks, nh :: nhs =>
    { fileDataId := id, contentKey := ck, nameHash := nh,
      localeFlags := locale, contentFlags := flags,
      normalizedPath := none, scopes := none } ::
      mkEntries locale flags ids cks nhs
  | _, _, _ => []

/-- The version-dependent header fields of `RootFile.parseBlock`: version 2
reads `locale, unk1, unk2, unk3` and combines `unk1 | unk2 | (unk3 << 17)`
into the content flags; any other version reads `contentFlags` then
`locale`.  Returns `(locale, contentFlags, rest)`. -/
def parseBlockVersionData (version : Nat) (r1 : List Nat) :
    Option (Nat × Int × List Nat) :=
  if version = 2 then
    match readU32LE r1 with
    | none => none
    | some (locale, r2) =>
      match readU32LE r2 with
      | none => none
      | some (unk1, r3) =>
        match readU32LE r3 with
        | none => none
        | some (unk2, r4) =>
          match r4 with
          | [] => none
          | u3 :: r5 =>
            some (locale,
              jsOr32 (jsOr32 (unk1 : Int) (unk2 : Int))
                (jsShl32 (u3 : Int) 17), r5)
  else
    match readU32LE r1 with
    | none => none
    | some (contentFlags, r2) =>
      match readU32LE r2 with
      | none => none
      | some (locale, r3) => some (locale, (contentFlags : Int), r3)

/-- `RootFile.parseBlock` of `src/root.ts` (lines 207-278), acting on the
unread remainder of the manifest: guard on at least 8 remaining bytes, read
`numRecords`, the version-dependent flags, the delta / content-key /
name-hash arrays (name hashes are present unless
`allowNonNamedFiles && contentFlags & 0x10000000`), then reconstruct the
fileDataIDs and emit the entries.  Returns the entries and the remaining
bytes. -/
def parseBlock (bytes : List Nat) (version : Nat)
    (allowNonNamedFiles : Bool) :
    Except CErr (List RootEntry × List Nat) :=
  if bytes.length < 8 then .error .insufficientBlock
  else
    match readU32LE bytes with
    | none => .error .rangeError
    | some (numRecords, r1) =>
      match parseBlockVersionData version r1 with
      | none => .error .rangeError
      | some (locale, contentFlags, r2) =>
        match readNI32 numRecords r2 with
        | none => .error .rangeError
        | some (deltas, r3) =>
          match readNHex numRecords r3 with
          | none => .error .rangeError
          | some (cKeys, r4) =>
            let hasNameHashes :=
              !(allowNonNamedFiles &&
                ((toU32 contentFlags &&& 268435456) != 0))
            if hasNameHashes then
              match readNU64 numRecords r4 with
              | none => .error .rangeError
              | some (hs, r5) =>
                .ok (mkEntries (getLocalesNum locale) contentFlags
                  (reconstructIds deltas) cKeys (hs.map some), r5)
            else
              .ok (mkEntries (getLocalesNum locale) contentFlags
                (reconstructIds deltas) cKeys
                (List.replicate numRecords none), r4)

end RootFile

namespace RootFile

theorem readNI32_length :
    ∀ (n : Nat) (l : List Nat) (vs : List Int) (r : List Nat),
      readNI32 n l = some (vs, r) → vs.length = n := by
  intro n
  induction n with
  | zero =>
    intro l vs r h
    simp only [readNI32, Option.some.injEq, Prod.mk.injEq] at h
    rw [← h.1]
    rfl
  | succ k ih =>
    intro l vs r h
    simp only [readNI32] at h
    split at h
    · exact absurd h (by simp)
    rename_i v r1 hv
    split at h
    · exact absurd h (by simp)
    rename_i vs1 r2 hrec
    simp only [Option.some.injEq, Prod.mk.injEq] at h
    rw [← h.1, List.length_cons, ih r1 vs1 r2 hrec]

theorem readNHex_length :
    ∀ (n : Nat) (l : List Nat) (vs : List (List Char)) (r : List Nat),
      readNHex n l = some (vs, r) → vs.length = n := by
  intro n
  induction n with
  | zero =>
    intro l vs r h
    simp only [readNHex, Option.some.injEq, Prod.mk.injEq] at h
    rw [← h.1]
    rfl
  | succ k ih =>
    intro l vs r h
    simp only [readNHex] at h
    split at h
    · split at h
      · exact absurd h (by simp)
      rename_i ks r1 hrec
      simp only [Option.some.injEq, Prod.mk.injEq] at h
      rw [← h.1, List.length_cons, ih _ ks r1 hrec]
    · exact absurd h (by simp)

theorem readNU64_length :
    ∀ (n : Nat) (l : List Nat) (vs : List Nat) (r : List Nat),
      readNU64 n l = some (vs, r) → vs.length = n := by
  intro n
  induction n with
  | zero =>
    intro l vs r h
    simp only [readNU64, Option.some.injEq, Prod.mk.injEq] at h
    rw [← h.1]
    rfl
  | succ k ih =>
    intro l vs r h
    simp only [readNU64] at h
    split at h
    · exact absurd h (by simp)
    rename_i v r1 hv
    split at h
    · exact absurd h (by simp)
    rename_i vs1 r2 hrec
    simp only [Option.some.injEq, Prod.mk.injEq] at h
    rw [← h.1, List.length_cons, ih r1 vs1 r2 hrec]

theorem reconstructIdsFrom_length (ds : List Int) :
    ∀ c : Int, (reconstructIdsFrom c ds).length = ds.length := by
  induction ds with
  | nil => intro c; rfl
  | cons d ds ih =>
    intro c
    simp only [reconstructIdsFrom, List.length_cons, ih]

theorem reconstructIds_length (ds : List Int) :
    (reconstructIds ds).length = ds.length := by
  match ds with
  | [] => rfl
  | d :: rest =>
    simp only [reconstructIds, List.length_cons, reconstructIdsFrom_length]

theorem mkEntries_map_fileDataId (loc : Locale) (flags : Int) :
    ∀ (ids : List Int) (cks : List (List Char)) (nhs : List (Option Nat)),
      cks.length = ids.length → nhs.length = ids.length →
      (mkEntries loc flags ids cks nhs).map RootEntry.fileDataId = ids := by
  intro ids
  induction ids with
  | nil =>
    intro cks nhs h1 h2
    cases cks <;> cases nhs <;> simp [mkEntries]
  | cons id ids ih =>
    intro cks nhs h1 h2
    cases cks with
    | nil => simp at h1
    | cons ck cks =>
      cases nhs with
      | nil => simp at h2
      | cons nh nhs =>
        simp only [mkEntries, List.map_cons, List.cons.injEq, true_and]
        exact ih cks nhs (by simpa using h1) (by simpa using h2)

theorem chain_reconstructIdsFrom (ds : List Int) :
    ∀ c : Int, (∀ d ∈ ds, 0 ≤ d) →
      List.Chain' (fun a b : Int => a + 1 ≤ b)
        (c :: reconstructIdsFrom c ds) := by
  induction ds with
  | nil => intro c _; simp [reconstructIdsFrom]
  | cons d ds ih =>
    intro c h
    simp only [reconstructIdsFrom]
    refine List.chain'_cons.mpr ⟨?_, ih (c + 1 + d)
      (fun x hx => h x (List.mem_cons_of_mem d hx))⟩
    have hd : 0 ≤ d := h d (List.mem_cons_self d ds)
    omega

end RootFile

namespace RootFile

/-- The delta array a block's bytes carry, read exactly as `parseBlock`
reads it: the same 8-byte guard, the same `numRecords` and
version-dependent header reads, then the `numRecords` signed 32-bit
little-endian deltas.  This is the projection of `parseBlock` onto its
`fileDataIdDeltas` local, used to state that a parsed block's ids come
from its own deltas. -/
def blockDeltas (bytes : List Nat) (version : Nat) : Option (List Int) :=
  if bytes.length < 8 then none
  else
    match readU32LE bytes with
    | none => none
    | some (numRecords, r1) =>
      match parseBlockVersionData version r1 with
      | none => none
      | some (_, _, r2) =>
        match readNI32 numRecords r2 with
        | none => none
        | some (deltas, _) => some deltas

theorem chain_reconstructIds (ds : List Int)
    (h : ∀ d ∈ ds.tail, 0 ≤ d) :
    List.Chain' (fun a b : Int => a + 1 ≤ b) (reconstructIds ds) := by
  match ds with
  | [] => simp [reconstructIds]
  | d :: rest =>
    simp only [reconstructIds]
    exact chain_reconstructIdsFrom rest d (fun x hx => h x (by simpa using hx))

end RootFile

/-- Claim C3 (amended): every parsed MFST block's fileDataId sequence is
the image of that block's own signed int32 delta array (`blockDeltas`,
read from the same bytes) under the `current = delta[0]` /
`current = current + 1 + delta[i]` recurrence, and the block's id sequence
is strictly increasing (`id[i+1] ≥ id[i] + 1`) whenever every delta after
the first is nonnegative.  (A negative delta — allowed by the signed read
and unchecked by the code — breaks monotonicity, see the
counterexample.) -/
theorem mfst_block_ids_from_own_deltas :
    ∀ (bytes : List Nat) (version : Nat) (anf : Bool)
      (entries : List RootFile.RootEntry) (rest : List Nat),
      RootFile.parseBlock bytes version anf = .ok (entries, rest) →
      ∃ deltas, RootFile.blockDeltas bytes version = some deltas ∧
        entries.map RootFile.RootEntry.fileDataId =
          RootFile.reconstructIds deltas ∧
        ((∀ d ∈ deltas.tail, 0 ≤ d) →
          List.Chain' (fun a b : Int => a + 1 ≤ b)
            (entries.map RootFile.RootEntry.fileDataId)) := by
  intro bytes version anf entries rest hpb
  simp only [RootFile.parseBlock] at hpb
  split at hpb
  · exact absurd hpb (by simp)
  rename_i hlen8
  split at hpb
  · exact absurd hpb (by simp)
  rename_i numRecords r1 hread
  split at hpb
  · exact absurd hpb (by simp)
  rename_i locale contentFlags r2 hver
  split at hpb
  · exact absurd hpb (by simp)
  rename_i deltas r3 hds
  split at hpb
  · exact absurd hpb (by simp)
  rename_i cKeys r4 hck
  have hdlen := RootFile.readNI32_length numRecords r2 deltas r3 hds
  have hcklen := RootFile.readNHex_length numRecords r3 cKeys r4 hck
  have hids : cKeys.length = (RootFile.reconstructIds deltas).length := by
    rw [RootFile.reconstructIds_length, hdlen, hcklen]
  have hbd : RootFile.blockDeltas bytes version = some deltas := by
    simp only [RootFile.blockDeltas, if_neg hlen8, hread, hver, hds]
  split at hpb
  · split at hpb
    · exact absurd hpb (by simp)
    rename_i hs r5 hnu
    simp only [Except.ok.injEq, Prod.mk.injEq] at hpb
    obtain ⟨hent, -⟩ := hpb
    have hmap : entries.map RootFile.RootEntry.fileDataId =
        RootFile.reconstructIds deltas := by
      rw [← hent]
      refine RootFile.mkEntries_map_fileDataId _ _ _ _ _ hids ?_
      rw [List.length_map, RootFile.readNU64_length numRecords r4 hs r5 hnu,
        RootFile.reconstructIds_length, hdlen]
    refine ⟨deltas, hbd, hmap, fun hd => ?_⟩
    rw [hmap]
    exact RootFile.chain_reconstructIds deltas hd
  · simp only [Except.ok.injEq, Prod.mk.injEq] at hpb
    obtain ⟨hent, -⟩ := hpb
    have hmap : entries.map RootFile.RootEntry.fileDataId =
        RootFile.reconstructIds deltas := by
      rw [← hent]
      refine RootFile.mkEntries_map_fileDataId _ _ _ _ _ hids ?_
      rw [List.length_replicate, RootFile.reconstructIds_length, hdlen]
    refine ⟨deltas, hbd, hmap, fun hd => ?_⟩
    rw [hmap]
    exact RootFile.chain_reconstructIds deltas hd

/-- A single MFST block, version 1: two records, `contentFlags = 0`,
`locale = 0x2` (enUS), deltas `10` and `-1` (bytes `ff ff ff ff`), two
content keys, two name hashes. -/
def mfstNegativeDeltaBlock : List Nat :=
  [2, 0, 0, 0] ++ [0, 0, 0, 0] ++ [2, 0, 0, 0] ++
  [10, 0, 0, 0] ++ [255, 255, 255, 255] ++
  List.replicate 16 17 ++ List.replicate 16 34 ++
  List.replicate 8 0 ++ List.replicate 8 0

/-- Claim C3 (counterexample): the block whose own delta array is
`[10, -1]` parses successfully to fileDataIds `[10, 10]` — the second id
equals the first, so the sequence is not strictly increasing. -/
theorem mfst_negative_delta_not_increasing :
    RootFile.blockDeltas mfstNegativeDeltaBlock 1 = some [10, -1] ∧
    (RootFile.parseBlock mfstNegativeDeltaBlock 1 false).map
      (fun p => p.1.map RootFile.RootEntry.fileDataId) = .ok [10, 10] ∧
    ¬ List.Chain' (fun a b : Int => a + 1 ≤ b) [10, 10] := by
  refine ⟨by decide, by decide, ?_⟩
  simp only [List.chain'_cons, List.chain'_singleton, and_true]
  omega

/-- A single-record version-1 MFST block with delta `5`. -/
def mfstTinyBlock : List Nat :=
  [1, 0, 0, 0] ++ [0, 0, 0, 0] ++ [2, 0, 0, 0] ++
  [5, 0, 0, 0] ++ List.replicate 16 0 ++ List.replicate 8 0

/-- The entry `parseBlock` builds from `mfstTinyBlock`. -/
def mfstTinyEntry : RootFile.RootEntry :=
  { fileDataId := 5
    contentKey := hexOfBytes (List.replicate 16 0)
    nameHash := some 0
    localeFlags := RootFile.getLocalesNum 2
    contentFlags := 0
    normalizedPath := none
    scopes := none }

/-- Witness for `mfst_block_ids_from_own_deltas` at the concrete
single-record block: its parsed entry list is tied to its own delta
array. -/
theorem mfst_block_ids_witness :
    ∃ deltas, RootFile.blockDeltas mfstTinyBlock 1 = some deltas ∧
      [mfstTinyEntry].map RootFile.RootEntry.fileDataId =
        RootFile.reconstructIds deltas ∧
      ((∀ d ∈ deltas.tail, 0 ≤ d) →
        List.Chain' (fun a b : Int => a + 1 ≤ b)
          ([mfstTinyEntry].map RootFile.RootEntry.fileDataId)) :=
  mfst_block_ids_from_own_deltas mfstTinyBlock 1 false [mfstTinyEntry] []
    (by decide)

namespace RootFile

/-- The ASCII whitespace characters recognised by `String.prototype.trim`
(the War3 manifest lines are ASCII). -/
def jsIsWS (c : Char) : Bool :=
  c == ' ' || c.toNat == 9 || c.toNat == 10 || c.toNat == 11 ||
    c.toNat == 12 || c.toNat == 13

/-- `String.prototype.split` on a single-character separator: split on
every occurrence, keeping empty fields. -/
def splitOnChar (sep : Char) : List Char → List (List Char)
  | [] => [[]]
  | c :: rest =>
    if c = sep then [] :: splitOnChar sep rest
    else
      match splitOnChar sep rest with
      | g :: gs => (c :: g) :: gs
      | [] => [[c]]

/-- `text.split('\r\n')` of `RootFile.parseWar3`: split on every
(non-overlapping) CRLF pair. -/
def splitCRLF : List Char → List (List Char)
  | [] => [[]]
  | '\r' :: '\n' :: rest => [] :: splitCRLF rest
  | c :: rest =>
    match splitCRLF rest with
    | g :: gs => (c :: g) :: gs
    | [] => [[c]]

/-- The regex replacement of `RootFile.getLocales` (pattern: dash,
whitespace, underscore): remove the first occurrence of a dash followed by
one whitespace character followed by an underscore (which no locale name
contains, so the replacement is a no-op on real input). -/
def removeDashWsUnderscore : List Char → List Char
  | '-' :: c :: '_' :: rest =>
    if c.isWhitespace then rest
    else '-' :: removeDashWsUnderscore (c :: '_' :: rest)
  | c :: rest => c :: removeDashWsUnderscore rest
  | [] => []

/-- The string branch of `RootFile.getLocales`: apply the (vacuous) regex
replacement, then set exactly the flag whose key name matches the result
verbatim. -/
def getLocalesStr (s : List Char) : Locale :=
  let prepared := removeDashWsUnderscore s
  { enUS := prepared == "enUS".data
    koKR := prepared == "koKR".data
    frFR := prepared == "frFR".data
    deDE := prepared == "deDE".data
    zhCN := prepared == "zhCN".data
    esES := prepared == "esES".data
    zhTW := prepared == "zhTW".data
    enGB := prepared == "enGB".data
    enCN := prepared == "enCN".data
    enTW := prepared == "enTW".data
    esMX := prepared == "esMX".data
    ruRU := prepared == "ruRU".data
    ptBR := prepared == "ptBR".data
    itIT := prepared == "itIT".data
    ptPT := prepared == "ptPT".data
    plPL := prepared == "plPL".data }

/-- One step of `RootFile.hashString`:
`hash = (hash << 5) - hash + charCode; hash = hash & hash` with
JavaScript's 32-bit semantics (`<<` and `&` truncate to `Int32`, the
middle arithmetic is exact). -/
def hashStep (h : Int) (c : Nat) : Int :=
  jsToInt32 (jsToInt32 (h * 32) - h + c)

/-- `RootFile.hashString`: fold the step over the UTF-16 code units (ASCII
on real paths), then `Math.abs`. -/
def hashString (s : List Char) : Nat :=
  (s.foldl (fun h c => hashStep h c.toNat) 0).natAbs

/-- JavaScript `toLowerCase`, faithful on the ASCII range. -/
def lowerL (l : List Char) : List Char := l.map Char.toLower

/-- The loop body of `RootFile.parseWar3` (lines 121-158) for one line:
split on `|`; skip the line when there are fewer than two fields or the
eKey field is empty (the thrown error is caught and counted as skipped);
otherwise emit an entry keyed by the 32-bit path hash.  The path field is
only defaulted to the empty string, never validated. -/
def parseWar3Line (line : List Char) : Option RootEntry :=
  let parts := splitOnChar '|' line
  if parts.length < 2 then none
  else
    let filePath := (parts.get? 0).getD []
    let eKey := (parts.get? 1).getD []
    if eKey = [] then none
    else
      let locale := (parts.get? 2).getD []
      let pathHash := hashString filePath
      let scopes := (splitOnChar ':' filePath).dropLast
      some { fileDataId := (pathHash : Int)
             contentKey := eKey
             nameHash := some pathHash
             localeFlags := getLocalesStr locale
             contentFlags := 0
             normalizedPath := some (lowerL filePath)
             scopes := some scopes }

/-- `RootFile.parseWar3` on the text after the `War3` magic: split on
CRLF, drop lines that are empty after trimming, process each remaining
line. -/
def parseWar3 (text : List Char) : List RootEntry :=
  ((splitCRLF text).filter (fun l => !(l.all jsIsWS))).filterMap
    parseWar3Line

/-- The regex replacement `path.replace(/\\+/, '/')` of
`RootFile.getEntryByPath`: the regex has no `g` flag, so only the FIRST
run of backslashes is collapsed to a single `/`; everything after it is
kept unchanged. -/
def replaceFirstBackslashRun : List Char → List Char
  | [] => []
  | c :: rest =>
    if c = '\\' then '/' :: rest.dropWhile (fun x => x = '\\')
    else c :: replaceFirstBackslashRun rest

/-- The query normalisation of `RootFile.getEntryByPath`:
`path.toLowerCase().replace(/\\+/, '/')`. -/
def normalizeQuery (path : List Char) : List Char :=
  replaceFirstBackslashRun (lowerL path)

/-- `String.prototype.startsWith` on character lists. -/
def startsWithL : List Char → List Char → Bool
  | _, [] => true
  | [], _ :: _ => false
  | a :: as, b :: bs => a == b && startsWithL as bs

/-- `String.prototype.includes` on character lists: the needle occurs as a
contiguous substring. -/
def containsSubL : List Char → List Char → Bool
  | [], needle => startsWithL [] needle
  | h :: t, needle => startsWithL (h :: t) needle || containsSubL t needle

/-- `RootFile.getEntryByPath`: normalise the query, then keep the entries
whose `_normalizedPath` is present and contains it (entries without a
path — the MFST ones — never match). -/
def getEntryByPath (entries : List RootEntry) (path : List Char) :
    List RootEntry :=
  entries.filter (fun e =>
    match e.normalizedPath with
    | some p => containsSubL p (normalizeQuery path)
    | none => false)

/-- Helper for the spec-side normalisation: collapse every maximal run of
backslashes to one `/` (the boolean tracks whether the previous character
was a backslash). -/
def collapseBackslashRuns : List Char → Bool → List Char
  | [], _ => []
  | c :: rest, inRun =>
    if c = '\\' then
      if inRun then collapseBackslashRuns rest true
      else '/' :: collapseBackslashRuns rest true
    else c :: collapseBackslashRuns rest false

/-- Modelled from the spec: the normalisation claim C5 describes —
lower-case the query and collapse EVERY run of backslashes to `/` (the
source's regex collapses only the first run; this definition exists to
compare the two). -/
def specNormalizeQuery (path : List Char) : List Char :=
  collapseBackslashRuns (lowerL path) false

end RootFile

/-- Claim C6 (counterexample): the manifest line `|ab` has an empty path
field and a non-empty eKey; `parseWar3` still produces an entry for it
(path hash 0, empty normalised path) instead of skipping the line. -/
theorem war3_empty_path_entry_emitted :
    (RootFile.parseWar3 "|ab".data).map RootFile.RootEntry.normalizedPath =
      [some []] ∧
    (RootFile.parseWar3 "|ab".data).map RootFile.RootEntry.contentKey =
      ["ab".data] ∧
    (RootFile.parseWar3 "|ab".data).map RootFile.RootEntry.fileDataId =
      [0] := by decide

/-- Claim C6 (amended): a War3 manifest line yields a `RootEntry` exactly
when it has at least two pipe-separated fields and its eKey field (the
second) is non-empty; the path field is not validated, so a line with an
empty path still yields an entry. -/
theorem war3_line_entry_iff (line : List Char) :
    (RootFile.parseWar3Line line).isSome = true ↔
      (2 ≤ (RootFile.splitOnChar '|' line).length ∧
        ((RootFile.splitOnChar '|' line).get? 1).getD [] ≠ []) := by
  by_cases h1 : (RootFile.splitOnChar '|' line).length < 2
  · simp only [RootFile.parseWar3Line, if_pos h1, Option.isSome_none]
    constructor
    · intro h
      exact absurd h (by simp)
    · intro h
      omega
  · by_cases h2 : ((RootFile.splitOnChar '|' line).get? 1).getD [] = []
    · simp only [RootFile.parseWar3Line, if_neg h1, if_pos h2,
        Option.isSome_none]
      constructor
      · intro h
        exact absurd h (by simp)
      · intro h
        exact absurd h2 h.2
    · simp only [RootFile.parseWar3Line, if_neg h1, if_neg h2,
        Option.isSome_some, true_iff]
      exact ⟨Nat.le_of_not_lt h1, h2⟩

/-- Claim C5 (counterexample): with a manifest holding the single path
`A/B/C` (normalised `a/b/c`), the query `a\b\c` — whose spec-side
normalisation (collapse EVERY backslash run) is `a/b/c` and is contained
in the entry's path — returns nothing, because the code's non-global
regex collapses only the first backslash run, producing `a/b\c`. -/
theorem path_lookup_misses_second_backslash_run :
    (RootFile.parseWar3 "A/B/C|ab".data).map
      RootFile.RootEntry.normalizedPath = [some "a/b/c".data] ∧
    RootFile.specNormalizeQuery "a\\b\\c".data = "a/b/c".data ∧
    RootFile.containsSubL "a/b/c".data
      (RootFile.specNormalizeQuery "a\\b\\c".data) = true ∧
    RootFile.getEntryByPath (RootFile.parseWar3 "A/B/C|ab".data)
      "a\\b\\c".data = [] := by decide

/-- Claim C5 (amended): `getEntryByPath` lower-cases the query and
collapses only the FIRST run of backslashes to `/`, then returns exactly
the entries whose `normalizedPath` is present and contains that normalised
query as a substring; in particular `getEntryByPath("Foo\Bar")` (one run)
still equals `getEntryByPath("foo/bar")` on every manifest. -/
theorem path_lookup_normalization :
    (∀ entries : List RootFile.RootEntry,
      RootFile.getEntryByPath entries "Foo\\Bar".data =
        RootFile.getEntryByPath entries "foo/bar".data) ∧
    (∀ (entries : List RootFile.RootEntry) (path : List Char)
        (e : RootFile.RootEntry),
      e ∈ RootFile.getEntryByPath entries path ↔
        e ∈ entries ∧ ∃ p, e.normalizedPath = some p ∧
          RootFile.containsSubL p (RootFile.normalizeQuery path) = true) := by
  constructor
  · intro entries
    have h : RootFile.normalizeQuery "Foo\\Bar".data =
        RootFile.normalizeQuery "foo/bar".data := by decide
    rw [RootFile.getEntryByPath, RootFile.getEntryByPath, h]
  · intro entries path e
    rw [RootFile.getEntryByPath, List.mem_filter]
    rcases hnp : e.normalizedPath with - | p
    · simp [hnp]
    · simp [hnp]

namespace CascClient

/-- `Map.get` over the hex-string-keyed maps of `src/client.ts`, as an
association-list lookup (JavaScript `Map` keys are unique; insertions
below prepend, so the first match is the most recent write). -/
def assocLookup {α : Type} : List (List Char × α) → List Char → Option α
  | [], _ => none
  | (k2, v) :: rest, k => if k2 = k then some v else assocLookup rest k

/-- `CascClient.getEKeyByCKey`: the encoding-table entry's eKey list when
the cKey is present, otherwise the cKey itself as the single candidate. -/
def getEKeyByCKey (enc : List (List Char × List (List Char)))
    (cKey : List Char) : List (List Char) :=
  match assocLookup enc cKey with
  | some eKeys => eKeys
  | none => [cKey]

/-- `buffer.subarray(offset, offset + size)` (clamped at the end, as
`subarray` is). -/
def sliceBuf (buf : List Nat) (off size : Nat) : List Nat :=
  (buf.drop off).take size

/-- The `for (const eKey of eKeys)` loop of `CascClient.getFile`: skip
candidates missing from the index; fetch the archive of the first located
candidate (a failed fetch throws), BLTE-decode its slice and return it;
`none` when no candidate resolves. -/
def getFileLoop (z lz4 : List Nat → Except CErr (List Nat))
    (idx : List (List Char × IndexEntry))
    (fetch : List Char → Option (List Nat)) :
    List (List Char) → Except CErr (Option (List Nat))
  | [] => .ok none
  | eKey :: rest =>
    match assocLookup idx eKey with
    | none => getFileLoop z lz4 idx fetch rest
    | some loc =>
      match fetch loc.archiveHash with
      | none => .error .fetchFailed
      | some buffer =>
        (getBlocksData z lz4 (sliceBuf buffer loc.offset loc.size)).map some

/-- `CascClient.getFile` of `src/client.ts`, with the HTTP transport
abstracted as the pure `fetch` map (archive hash to bytes). -/
def getFile (z lz4 : List Nat → Except CErr (List Nat))
    (enc : List (List Char × List (List Char)))
    (idx : List (List Char × IndexEntry))
    (fetch : List Char → Option (List Nat)) (cKey : List Char) :
    Except CErr (Option (List Nat)) :=
  getFileLoop z lz4 idx fetch (getEKeyByCKey enc cKey)

/-- The `eKeyToCKey` map of `CascClient.getFiles`: for each cKey in order,
record `eKey -> cKey` for each candidate (later writes shadow earlier
ones; prepending with first-match lookup models `Map.set`/`Map.get`). -/
def buildOrigin (enc : List (List Char × List (List Char)))
    (cKeys : List (List Char)) : List (List Char × List Char) :=
  cKeys.foldl
    (fun m ck => (getEKeyByCKey enc ck).foldl
      (fun m2 ek => (ek, ck) :: m2) m) []

/-- The resolved locations of `CascClient.getFiles`: flat-map the cKeys to
candidate eKeys, look each up in the index, and drop the misses. -/
def resolvedLocations (enc : List (List Char × List (List Char)))
    (idx : List (List Char × IndexEntry)) (cKeys : List (List Char)) :
    List IndexEntry :=
  ((cKeys.map (getEKeyByCKey enc)).flatten).filterMap (assocLookup idx)

/-- The key order of the `reduce`-built record of `CascClient.getFiles`
(`Object.entries` iterates string keys in insertion order): first
occurrence of each archive hash. -/
def firstOccurAux : List (List Char) → List (List Char) → List (List Char)
  | [], _ => []
  | a :: l, seen =>
    if a ∈ seen then firstOccurAux l seen
    else a :: firstOccurAux l (a :: seen)

/-- The location group of one archive hash, in resolution order. -/
def groupOf (locs : List IndexEntry) (k : List Char) : List IndexEntry :=
  locs.filter (fun l => l.archiveHash == k)

/-- The inner loop of `CascClient.getFiles` for one archive group: decode
each `(offset, size)` slice of the one fetched buffer, naming each result
by the originating cKey (`eKeyToCKey.get(eKey) || eKey`). -/
def decodeGroup (z lz4 : List Nat → Except CErr (List Nat))
    (origin : List (List Char × List Char)) (buf : List Nat) :
    List IndexEntry → Except CErr (List (List Char × List Nat))
  | [] => .ok []
  | loc :: rest => do
    let data ← getBlocksData z lz4 (sliceBuf buf loc.offset loc.size)
    let out ← decodeGroup z lz4 origin buf rest
    return ((assocLookup origin loc.eKey).getD loc.eKey, data) :: out

/-- The outer loop of `CascClient.getFiles` over the archive groups: fetch
each group's archive once (recording the fetch in the first component),
then decode its slices; a failed fetch or decode aborts the call. -/
def getFilesGo (z lz4 : List Nat → Except CErr (List Nat))
    (fetch : List Char → Option (List Nat))
    (origin : List (List Char × List Char)) (locs : List IndexEntry) :
    List (List Char) →
      List (List Char) × Except CErr (List (List Char × List Nat))
  | [] => ([], .ok [])
  | k :: ks =>
    match fetch k with
    | none => ([k], .error .fetchFailed)
    | some buf =>
      match decodeGroup z lz4 origin buf (groupOf locs k) with
      | .error e => ([k], .error e)
      | .ok res =>
        (k :: (getFilesGo z lz4 fetch origin locs ks).1,
          (getFilesGo z lz4 fetch origin locs ks).2.map
            (fun r => res ++ r))

/-- `CascClient.getFiles` of `src/client.ts` (transport abstracted as for
`getFile`): resolve, group by archive hash, walk the groups.  The first
component is the list of archive fetches performed, the second the
result. -/
def getFilesRun (z lz4 : List Nat → Except CErr (List Nat))
    (enc : List (List Char × List (List Char)))
    (idx : List (List Char × IndexEntry))
    (fetch : List Char → Option (List Nat)) (cKeys : List (List Char)) :
    List (List Char) × Except CErr (List (List Char × List Nat)) :=
  getFilesGo z lz4 fetch (buildOrigin enc cKeys)
    (resolvedLocations enc idx cKeys)
    (firstOccurAux
      ((resolvedLocations enc idx cKeys).map IndexEntry.archiveHash) [])

theorem getFilesGo_ok_log (z lz4 : List Nat → Except CErr (List Nat))
    (fetch : List Char → Option (List Nat))
    (origin : List (List Char × List Char)) (locs : List IndexEntry) :
    ∀ (ks : List (List Char)) (res : List (List Char × List Nat)),
      (getFilesGo z lz4 fetch origin locs ks).2 = .ok res →
      (getFilesGo z lz4 fetch origin locs ks).1 = ks := by
  intro ks
  induction ks with
  | nil => intro res _; rfl
  | cons k ks ih =>
    intro res h
    cases hf : fetch k with
    | none =>
      simp only [getFilesGo, hf] at h
      exact absurd h (by simp)
    | some buf =>
      cases hd : decodeGroup z lz4 origin buf (groupOf locs k) with
      | error e =>
        simp only [getFilesGo, hf, hd] at h
        exact absurd h (by simp)
      | ok res1 =>
        simp only [getFilesGo, hf, hd] at h ⊢
        cases h2 : (getFilesGo z lz4 fetch origin locs ks).2 with
        | error e =>
          rw [h2] at h
          exact absurd h (by simp [Except.map])
        | ok r2 =>
          rw [ih r2 h2]

theorem firstOccurAux_mem :
    ∀ (l seen : List (List Char)) (a : List Char),
      a ∈ firstOccurAux l seen ↔ (a ∈ l ∧ a ∉ seen) := by
  intro l
  induction l with
  | nil => intro seen a; simp [firstOccurAux]
  | cons b l ih =>
    intro seen a
    simp only [firstOccurAux]
    by_cases hb : b ∈ seen
    · rw [if_pos hb, ih]
      simp only [List.mem_cons]
      by_cases hab : a = b
      · subst hab
        tauto
      · tauto
    · rw [if_neg hb]
      simp only [List.mem_cons, ih, List.mem_cons]
      by_cases hab : a = b
      · subst hab
        tauto
      · tauto

theorem firstOccurAux_nodup :
    ∀ (l seen : List (List Char)), (firstOccurAux l seen).Nodup := by
  intro l
  induction l with
  | nil => intro seen; simp [firstOccurAux]
  | cons b l ih =>
    intro seen
    simp only [firstOccurAux]
    by_cases hb : b ∈ seen
    · rw [if_pos hb]
      exact ih seen
    · rw [if_neg hb]
      refine List.nodup_cons.mpr ⟨?_, ih (b :: seen)⟩
      intro hmem
      rw [firstOccurAux_mem] at hmem
      exact hmem.2 (List.mem_cons_self b seen)

theorem firstOccur_length_eq_card (l : List (List Char)) :
    (firstOccurAux l []).length = l.toFinset.card := by
  have hset : (firstOccurAux l []).toFinset = l.toFinset := by
    ext a
    simp [List.mem_toFinset, firstOccurAux_mem]
  rw [← hset, List.toFinset_card_of_nodup (firstOccurAux_nodup l [])]

end CascClient

/-- Claim C7: when the encoding table has no entry for a cKey,
`getEKeyByCKey` returns `[cKey]` and `getFile` behaves exactly as its
candidate loop run on that single candidate — the cKey is used directly as
an eKey against the index map, and the miss itself raises no error. -/
theorem getfile_encoding_miss_uses_ckey
    (z lz4 : List Nat → Except CErr (List Nat))
    (enc : List (List Char × List (List Char)))
    (idx : List (List Char × IndexEntry))
    (fetch : List Char → Option (List Nat)) (cKey : List Char)
    (h : CascClient.assocLookup enc cKey = none) :
    CascClient.getEKeyByCKey enc cKey = [cKey] ∧
    CascClient.getFile z lz4 enc idx fetch cKey =
      CascClient.getFileLoop z lz4 idx fetch [cKey] := by
  have hkeys : CascClient.getEKeyByCKey enc cKey = [cKey] := by
    rw [CascClient.getEKeyByCKey, h]
  exact ⟨hkeys, by rw [CascClient.getFile, hkeys]⟩

/-- A one-block BLTE container (format `0x0F`, `headerSize = 36`,
`compressedSize = 2`, `decompressedSize = 1`) whose single `'N'` block
holds the byte `120`. -/
def miniBlte : List Nat :=
  [66, 76, 84, 69] ++ [0, 0, 0, 36] ++ [15] ++ [0, 0, 1] ++
  [0, 0, 0, 2] ++ [0, 0, 0, 1] ++ List.replicate 16 0 ++ [78, 120]

/-- First loose cKey of the concrete client state. -/
def wCk1 : List Char := "aa".data

/-- Second loose cKey of the concrete client state. -/
def wCk2 : List Char := "bb".data

/-- The single archive hash of the concrete client state. -/
def wArchive : List Char := "cc".data

/-- Index location of `wCk1`: the whole `miniBlte` inside `wArchive`. -/
def wLoc1 : IndexEntry :=
  { eKey := wCk1, size := 38, offset := 0, archiveHash := wArchive,
    source := IndexSource.archive }

/-- Index location of `wCk2`: the same slice of the same archive. -/
def wLoc2 : IndexEntry :=
  { eKey := wCk2, size := 38, offset := 0, archiveHash := wArchive,
    source := IndexSource.archive }

/-- Concrete index map holding both locations. -/
def wIdx : List (List Char × IndexEntry) := [(wCk1, wLoc1), (wCk2, wLoc2)]

/-- Concrete fetch: only `wArchive` exists and holds `miniBlte`. -/
def wFetch : List Char → Option (List Nat) :=
  fun k => if k = wArchive then some miniBlte else none

/-- Witness for `getfile_encoding_miss_uses_ckey`: with an empty encoding
table, `getFile` on `wCk1` is the candidate loop on `[wCk1]`. -/
theorem getfile_encoding_miss_witness :
    CascClient.getEKeyByCKey [] wCk1 = [wCk1] ∧
    CascClient.getFile dummyCodec dummyCodec [] wIdx wFetch wCk1 =
      CascClient.getFileLoop dummyCodec dummyCodec wIdx wFetch [wCk1] :=
  getfile_encoding_miss_uses_ckey dummyCodec dummyCodec [] wIdx wFetch wCk1
    rfl

/-- Claim C9: when a `getFiles` call completes without error, the number
of archive fetches it performed equals the number of distinct
`archiveHash` values among the resolved index locations — each distinct
archive is fetched exactly once, and every slice of that archive is
decoded from the one fetched buffer inside its group. -/
theorem getfiles_one_fetch_per_archive
    (z lz4 : List Nat → Except CErr (List Nat))
    (enc : List (List Char × List (List Char)))
    (idx : List (List Char × IndexEntry))
    (fetch : List Char → Option (List Nat)) (cKeys : List (List Char))
    (res : List (List Char × List Nat))
    (h : (CascClient.getFilesRun z lz4 enc idx fetch cKeys).2 = .ok res) :
    (CascClient.getFilesRun z lz4 enc idx fetch cKeys).1.length =
      ((CascClient.resolvedLocations enc idx cKeys).map
        IndexEntry.archiveHash).toFinset.card := by
  rw [CascClient.getFilesRun] at h ⊢
  rw [CascClient.getFilesGo_ok_log z lz4 fetch _ _ _ res h]
  exact CascClient.firstOccur_length_eq_card _

/-- Witness for `getfiles_one_fetch_per_archive`: two cKeys resolving into
the same archive — one fetch, one distinct hash. -/
theorem getfiles_one_fetch_witness :
    (CascClient.getFilesRun dummyCodec dummyCodec [] wIdx wFetch
      [wCk1, wCk2]).1.length =
      ((CascClient.resolvedLocations [] wIdx [wCk1, wCk2]).map
        IndexEntry.archiveHash).toFinset.card :=
  getfiles_one_fetch_per_archive dummyCodec dummyCodec [] wIdx wFetch
    [wCk1, wCk2] [(wCk1, [120]), (wCk2, [120])] (by decide)
